import Mathlib

/-!
Verification development for the PhotoBatcher service (src/main.py).

The file shallowly embeds the image-processing pipeline and the batch
orchestrator of main.py.  Images are modelled by their pixel dimensions
together with the list of pipeline stages that have been invoked on them
(pixel contents are abstracted away: none of the verified claims depends
on individual pixel values, only on dimensions, stage order, and archive
layout).  Rational numbers stand in for Python floats in the dimension
arithmetic of PIL's Image.thumbnail.
-/

/-- The pipeline stages named by the specification.  `orient` is EXIF-aware
orientation correction (together with the RGB conversion), `level` background
leveling, `crop` content-bounding-box cropping, `square` square-canvas
compositing, `enhance` tone/color enhancement, `resize` platform-specific
resizing, `encode` lossy JPEG re-encoding. -/
inductive Stage where
  | orient
  | level
  | crop
  | square
  | enhance
  | resize
  | encode
deriving DecidableEq

/-- The stage order asserted by the specification for the per-image pipeline
(spec section 1 and section 4.8).  Kept for comparison with what the code
actually runs. -/
def specStageOrder : List Stage :=
  [Stage.orient, Stage.level, Stage.crop, Stage.square, Stage.enhance,
   Stage.resize, Stage.encode]

/-- A decoded in-memory image: its width and height in pixels, and the trace
of pipeline stage functions that have been invoked on it (in invocation
order).  A stage tag is recorded whenever the corresponding function runs on
the image, whether or not it alters pixel data. -/
structure Img where
  w : Nat
  h : Nat
  ops : List Stage
deriving DecidableEq

/-- The bytes of one uploaded file, abstracted: either they decode to an
image of some dimensions (with an EXIF orientation tag that may swap width
and height on transposition), or they are not decodable as an image. -/
inductive FileData where
  | image (w h : Nat) (exifSwap : Bool)
  | corrupt
deriving DecidableEq

/-- One uploaded file of a batch request: client-supplied filename plus
content bytes. -/
structure UploadFileM where
  filename : String
  content : FileData
deriving DecidableEq

/-- main.py line 18: the fixed upload staging directory. -/
def UPLOAD_DIR : String := "temp_uploads"

/-- main.py line 19: the fixed processed-output staging directory. -/
def PROCESSED_DIR : String := "temp_processed"

/-- The set of whitespace characters stripped by Python's str.strip()
(ASCII portion). -/
def pyIsSpace (c : Char) : Bool :=
  c == ' ' || c == '\t' || c == '\n' || c == '\r' ||
    c == Char.ofNat 11 || c == Char.ofNat 12

/-- Python str.strip(): drop leading and trailing whitespace. -/
def pyStrip (cs : List Char) : List Char :=
  ((cs.dropWhile pyIsSpace).reverse.dropWhile pyIsSpace).reverse

/-- main.py line 30: title.replace(" ", "_"). -/
def replaceSpaces (cs : List Char) : List Char :=
  cs.map (fun c => if c == ' ' then '_' else c)

/-- A character kept by the regex class [A-Za-z0-9_-] of main.py line 31. -/
def isSlugChar (c : Char) : Bool :=
  c.isAlpha || c.isDigit || c == '_' || c == '-'

/-- main.py line 31: re.sub removing every character outside [A-Za-z0-9_-]. -/
def keepSlugChars (cs : List Char) : List Char :=
  cs.filter isSlugChar

/-- main.py line 32, first half: re.sub collapsing every maximal run of
underscores to a single underscore. -/
def collapseUnderscores (cs : List Char) : List Char :=
  cs.foldr (fun c acc => if c == '_' && acc.head? == some '_' then acc else c :: acc) []

/-- main.py line 32, second half: str.strip("_") removing leading and
trailing underscores. -/
def stripUnderscores (cs : List Char) : List Char :=
  ((cs.dropWhile (fun c => c == '_')).reverse.dropWhile (fun c => c == '_')).reverse

/-- main.py lines 26-33: slugify_title, translated line by line. -/
def slugify_title (title : String) : String :=
  let t1 := String.mk (pyStrip title.toList)
  if t1 = "" then "Batch"
  else
    let t2 := String.mk (replaceSpaces t1.toList)
    let t3 := String.mk (keepSlugChars t2.toList)
    let t4 := String.mk (stripUnderscores (collapseUnderscores t3.toList))
    if t4 = "" then "Batch" else t4

/-- Slugification as the specification words it (claim C6): trim, replace
spaces with underscores, strip characters outside [A-Za-z0-9_-], collapse
repeated underscores, strip leading and trailing underscores, default to
"Batch" when the result is empty.  Stated as one composed pass, to be
compared with the code's slugify_title. -/
def slugifySpecC6 (title : String) : String :=
  let r := String.mk
    (stripUnderscores (collapseUnderscores (keepSlugChars (replaceSpaces (pyStrip title.toList)))))
  if r = "" then "Batch" else r

/-- Python's min(floor(q), ceil(q), key=key) followed by max(..., 1), as in
the round_aspect helper inside PIL Image.thumbnail (reached from main.py
line 63).  Python's min returns the first argument on a key tie. -/
def roundAspect (q : Rat) (key : Nat → Rat) : Nat :=
  max (if key (⌊q⌋).toNat ≤ key (⌈q⌉).toNat then (⌊q⌋).toNat else (⌈q⌉).toNat) 1

/-- Dimension semantics of PIL Image.thumbnail(size) with size = (bw, bh)
(called at main.py line 63): if the image already fits in the box it is left
untouched; otherwise the target is shrunk on one axis to preserve the aspect
ratio w/h, rounding to the nearest integer dimension (never below 1).
Python float arithmetic is modelled by exact rational arithmetic. -/
def thumbnailDims (w h bw bh : Nat) : Nat × Nat :=
  if bw ≥ w ∧ bh ≥ h then (w, h)
  else if (bw : Rat) / (bh : Rat) ≥ (w : Rat) / (h : Rat) then
    (roundAspect ((bh : Rat) * ((w : Rat) / (h : Rat)))
      (fun n => |(w : Rat) / (h : Rat) - (n : Rat) / (bh : Rat)|), bh)
  else
    (bw, roundAspect ((bw : Rat) / ((w : Rat) / (h : Rat)))
      (fun n => if n = 0 then 0 else |(w : Rat) / (h : Rat) - (bw : Rat) / (n : Rat)|))

/-- image.thumbnail(max_size, Image.LANCZOS): update the dimensions by
thumbnailDims and record that the resize stage ran on the image. -/
def applyThumbnail (image : Img) (bw bh : Nat) : Img :=
  let d := thumbnailDims image.w image.h bw bh
  { w := d.1, h := d.2, ops := image.ops ++ [Stage.resize] }

/-- main.py lines 52-64: resize_for_platform.  The platform identifier is
matched against the three recognized marketplaces; an unrecognized
identifier passes the image through with no size change. -/
def resize_for_platform (image : Img) (platform : String) : Img :=
  if platform = "ebay" then applyThumbnail image 1600 1600
  else if platform = "poshmark" then applyThumbnail image 1080 1080
  else if platform = "mercari" then applyThumbnail image 1200 1200
  else { image with ops := image.ops ++ [Stage.resize] }

/-- The platform-to-target table implicit in resize_for_platform's if/elif
chain, used to state the dimension claims. -/
def platformTargets : List (String × Nat) :=
  [("ebay", 1600), ("poshmark", 1080), ("mercari", 1200)]

/-- main.py lines 36-41: enhance_image_export.  Brightness 1.05, contrast
1.10, sharpness 1.05 — pixel-value adjustments that never change the image
dimensions; the model records that the tone-enhancement stage ran. -/
def enhance_image_export (image : Img) : Img :=
  { image with ops := image.ops ++ [Stage.enhance] }

/-- main.py lines 538-539: ImageOps.exif_transpose followed by
img.convert("RGB").  A dimension-swapping EXIF orientation (rotate 90/270)
exchanges width and height; the RGB conversion keeps dimensions.  This is
the first stage run on a freshly decoded image, so the trace starts here. -/
def exif_transpose_convert (w h : Nat) (exifSwap : Bool) : Img :=
  { w := if exifSwap then h else w,
    h := if exifSwap then w else h,
    ops := [Stage.orient] }

/-- main.py lines 536-555, the body of the per-(platform, image) try block
up to (but not including) img.save: decode the file, orient and convert it,
apply the export enhancement, resize for the platform.  Returns none when
Image.open fails to decode the bytes (the DecodeError case). -/
def processPair (fd : FileData) (platform : String) : Option Img :=
  match fd with
  | FileData.corrupt => none
  | FileData.image w h exifSwap =>
      some (resize_for_platform
        (enhance_image_export (exif_transpose_convert w h exifSwap)) platform)

/-- main.py lines 549-555: img.save(..., format="JPEG", quality=85,
optimize=True, progressive=True).  Serialization keeps the pixel dimensions
and records the encode stage. -/
def encodeJPEG (image : Img) : Img :=
  { image with ops := image.ops ++ [Stage.encode] }

/-- The two staging directories of the server, as name-to-content maps.
uploadDir holds the files of temp_uploads; processedDir holds the files of
temp_processed, keyed by (platform subfolder, output filename). -/
structure SysState where
  uploadDir : List (String × FileData)
  processedDir : List ((String × String) × Img)
deriving DecidableEq

/-- Insert-or-overwrite into a name-keyed directory listing: writing a file
under an existing name replaces its content in place, a new name is appended.
Models a filesystem write; the listing order models os.listdir order (first
creation order). -/
def storeKV {α β : Type} [DecidableEq α] (m : List (α × β)) (k : α) (v : β) :
    List (α × β) :=
  if m.any (fun e => e.1 = k) then m.map (fun e => if e.1 = k then (k, v) else e)
  else m ++ [(k, v)]

/-- main.py lines 514-520: shutil.rmtree on both staging directories
followed by os.makedirs — both directories are left existing and empty,
whatever they contained before. -/
def wipeStagingDirs (_s : SysState) : SysState :=
  { uploadDir := [], processedDir := [] }

/-- True when a client-supplied filename contains a path separator. -/
def hasSep (s : String) : Bool :=
  s.toList.any (fun c => c == '/')

/-- main.py lines 522-526: each upload is written to
os.path.join(UPLOAD_DIR, f.filename) with the filename unsanitized.  A
filename containing a path separator makes that path leave the upload
directory (see the C9 theorem) or name a non-existent subdirectory, so the
written file never appears in os.listdir(UPLOAD_DIR); the model therefore
keeps only separator-free names in uploadDir.  The claims about successful
batches all assume separator-free filenames. -/
def saveUploads (s : SysState) (files : List UploadFileM) : SysState :=
  { s with
    uploadDir :=
      files.foldl
        (fun d f => if hasSep f.filename then d else storeKV d f.filename f.content)
        s.uploadDir }

/-- Python os.path.splitext(name)[0] for a directory-free name: drop the
extension at the last dot, except that a leading run of dots never starts an
extension (".bashrc" has no extension). -/
def splitextBase (name : String) : String :=
  let r := name.toList.reverse
  let rest := r.dropWhile (fun c => !(c == '.'))
  match rest with
  | [] => name
  | _ :: baseRev =>
      if baseRev.all (fun c => c == '.') then name
      else String.mk baseRev.reverse

/-- main.py lines 533-557, the inner loop over os.listdir(UPLOAD_DIR) for
one platform: each decodable file is processed and saved (overwriting any
same-named output) as <basename>.jpg under the platform folder; a failing
file is logged and skipped. -/
def processFolder (uploads : List (String × FileData)) (p : String)
    (acc : List ((String × String) × Img)) : List ((String × String) × Img) :=
  uploads.foldl
    (fun acc2 nf =>
      match processPair nf.2 p with
      | some img => storeKV acc2 (p, splitextBase nf.1 ++ ".jpg") (encodeJPEG img)
      | none => acc2)
    acc

/-- main.py lines 529-557, the outer loop over the requested platforms. -/
def processAll (s : SysState) (platforms : List String) : SysState :=
  { s with
    processedDir :=
      platforms.foldl (fun acc p => processFolder s.uploadDir p acc) s.processedDir }

/-- main.py lines 561-562: the dated parent folder name inside the zip,
<slug>_PhotoBatcher_<date>.  The current date is passed in as a string. -/
def parentFolderName (item_title dateStr : String) : String :=
  slugify_title (if item_title = "" then "Batch" else item_title)
    ++ "_PhotoBatcher_" ++ dateStr

/-- main.py lines 564-570: walk temp_processed and place every output file
in the zip at <parent>/<platform>/<filename>. -/
def buildArchive (parent : String) (s : SysState) : List (String × Img) :=
  s.processedDir.map (fun e => (parent ++ "/" ++ e.1.1 ++ "/" ++ e.1.2, e.2))

/-- The request-level failures of the /process endpoint. -/
inductive RequestError where
  | noPlatformSelected
deriving DecidableEq

/-- main.py lines 502-581: the /process endpoint.  Validates that at least
one platform was selected (HTTP 400 otherwise), wipes and recreates the two
staging directories, saves the uploads, processes every (platform, image)
pair with per-pair failure isolation, and zips temp_processed under the
dated parent folder.  The returned value is the final staging state together
with the archive listing (zip path, encoded image). -/
def process_images (init : SysState) (files : List UploadFileM)
    (platforms : List String) (item_title dateStr : String) :
    Except RequestError (SysState × List (String × Img)) :=
  if platforms = [] then Except.error RequestError.noPlatformSelected
  else
    let s0 := wipeStagingDirs init
    let s1 := saveUploads s0 files
    let s2 := processAll s1 platforms
    Except.ok (s2, buildArchive (parentFolderName item_title dateStr) s2)

/-- True when the request succeeded (HTTP 200 with a zip stream). -/
def reqOk (r : Except RequestError (SysState × List (String × Img))) : Bool :=
  match r with
  | Except.ok _ => true
  | Except.error _ => false

/-- The archive listing of a successful request (empty on failure). -/
def archiveEntries (r : Except RequestError (SysState × List (String × Img))) :
    List (String × Img) :=
  match r with
  | Except.ok v => v.2
  | Except.error _ => []

/-- Concatenation of per-element lists, used to state archive layouts. -/
def flatMapL {α β : Type} (l : List α) (g : α → List β) : List β :=
  match l with
  | [] => []
  | a :: rest => g a ++ flatMapL rest g

/-- The archive layout claimed by the specification: one entry
<parent>/<platform>/<basename>.jpg for every platform (outer) and every
uploaded name (inner). -/
def expectedPaths (parent : String) (platforms : List String)
    (names : List String) : List String :=
  flatMapL platforms
    (fun p => names.map (fun n => parent ++ "/" ++ p ++ "/" ++ splitextBase n ++ ".jpg"))

/-- Python os.path.join(a, b) for POSIX paths (the form used at main.py
line 524): b absolute replaces a; otherwise a separator is inserted unless a
is empty or already ends in one. -/
def os_path_join (a b : String) : String :=
  if b.toList.head? = some '/' then b
  else if a = "" ∨ a.toList.getLast? = some '/' then a ++ b
  else a ++ "/" ++ b

/-- Split a character list on '/' (Python str.split("/")): every separator
starts a new component, so leading, trailing and doubled separators yield
empty components. -/
def splitSlash (cs : List Char) : List (List Char) :=
  cs.foldr
    (fun c acc =>
      match acc with
      | [] => if c == '/' then [[], []] else [[c]]
      | cur :: rest => if c == '/' then [] :: cur :: rest else (c :: cur) :: rest)
    [[]]

/-- One step of Python posixpath.normpath's component scan, for relative
paths: "" and "." are dropped; ".." pops the previous component unless there
is none or it is itself ".."; anything else is pushed. -/
def normStep (acc : List String) (comp : String) : List String :=
  if comp = "" || comp = "." then acc
  else if comp = ".." then
    if acc = [] || acc.getLast? = some ".." then acc ++ [".."]
    else acc.dropLast
  else acc ++ [comp]

/-- Join path components with '/'. -/
def joinSlash : List String → String
  | [] => ""
  | [c] => c
  | c :: rest => c ++ "/" ++ joinSlash rest

/-- Python posixpath.normpath for relative paths (the staging directories of
main.py are relative paths): resolve "." and ".." components lexically. -/
def os_path_normpath (p : String) : String :=
  let comps := ((splitSlash p.toList).map String.mk).foldl normStep []
  if comps = [] then "." else joinSlash comps

/-- A path lies inside directory d when, after normalization, it is d itself
or has d ++ "/" as a leading component prefix. -/
def insideDir (d p : String) : Bool :=
  p == d || (d ++ "/").toList.isPrefixOf p.toList

/-- A concrete batch of 25 uploads, one above the specification's stated
maximum of 24, all decodable 10x10 images with distinct names. -/
def files25 : List UploadFileM :=
  [⟨"f01.png", FileData.image 10 10 false⟩, ⟨"f02.png", FileData.image 10 10 false⟩,
   ⟨"f03.png", FileData.image 10 10 false⟩, ⟨"f04.png", FileData.image 10 10 false⟩,
   ⟨"f05.png", FileData.image 10 10 false⟩, ⟨"f06.png", FileData.image 10 10 false⟩,
   ⟨"f07.png", FileData.image 10 10 false⟩, ⟨"f08.png", FileData.image 10 10 false⟩,
   ⟨"f09.png", FileData.image 10 10 false⟩, ⟨"f10.png", FileData.image 10 10 false⟩,
   ⟨"f11.png", FileData.image 10 10 false⟩, ⟨"f12.png", FileData.image 10 10 false⟩,
   ⟨"f13.png", FileData.image 10 10 false⟩, ⟨"f14.png", FileData.image 10 10 false⟩,
   ⟨"f15.png", FileData.image 10 10 false⟩, ⟨"f16.png", FileData.image 10 10 false⟩,
   ⟨"f17.png", FileData.image 10 10 false⟩, ⟨"f18.png", FileData.image 10 10 false⟩,
   ⟨"f19.png", FileData.image 10 10 false⟩, ⟨"f20.png", FileData.image 10 10 false⟩,
   ⟨"f21.png", FileData.image 10 10 false⟩, ⟨"f22.png", FileData.image 10 10 false⟩,
   ⟨"f23.png", FileData.image 10 10 false⟩, ⟨"f24.png", FileData.image 10 10 false⟩,
   ⟨"f25.png", FileData.image 10 10 false⟩]

/-- C3, counterexample: a batch of 25 images (above the claimed maximum of
24) with a platform selected is not rejected: the request succeeds and all
25 images are processed, because process_images validates only the platform
set and never the image count. -/
theorem c3_no_count_validation :
    files25.length = 25 ∧
    reqOk (process_images ⟨[], []⟩ files25 ["ebay"] "" "2026-10-12") = true ∧
    (archiveEntries (process_images ⟨[], []⟩ files25 ["ebay"] "" "2026-10-12")).length = 25 :=
  ⟨rfl, rfl, rfl⟩

/-- C3, amended: a request with an empty platform set fails with the
validation error before anything is processed; the image count, however, is
not validated — the 25-image batch above is processed in full. -/
theorem c3_empty_platforms_error :
    (∀ (init : SysState) (files : List UploadFileM) (title dateStr : String),
      process_images init files [] title dateStr
        = Except.error RequestError.noPlatformSelected) ∧
    reqOk (process_images ⟨[], []⟩ files25 ["ebay"] "" "2026-10-12") = true ∧
    (archiveEntries (process_images ⟨[], []⟩ files25 ["ebay"] "" "2026-10-12")).length = 25 :=
  ⟨fun _ _ _ _ => rfl, rfl, rfl⟩

/-- C9: joining the staging directory with the client-supplied filename
"../x" (which contains a path separator) produces temp_uploads/../x, which
normalizes to x — a path outside the staging directory. -/
theorem c9_unsanitized_join_escapes :
    hasSep "../x" = true ∧
    os_path_join UPLOAD_DIR "../x" = "temp_uploads/../x" ∧
    os_path_normpath (os_path_join UPLOAD_DIR "../x") = "x" ∧
    insideDir UPLOAD_DIR (os_path_normpath (os_path_join UPLOAD_DIR "../x")) = false := by
  refine ⟨by decide, by decide, by decide, by decide⟩

/-- C10: the /process handler resets both staging directories to empty
(shutil.rmtree followed by os.makedirs) before saving any upload, so the
outcome of a request — archive included — is identical whatever the staging
directories contained when the request arrived. -/
theorem c10_staging_reset_independence :
    (∀ s : SysState, wipeStagingDirs s = ⟨[], []⟩) ∧
    (∀ (init1 init2 : SysState) (files : List UploadFileM) (platforms : List String)
        (title dateStr : String),
      process_images init1 files platforms title dateStr
        = process_images init2 files platforms title dateStr) :=
  ⟨fun _ => rfl, fun _ _ _ _ _ _ => rfl⟩

/-- C2, counterexample: a 100x100 image sent to the recognized platform
"ebay" keeps its 100x100 dimensions (Image.thumbnail never upscales), so the
resizer's output does not have the claimed exact 1600x1600 target size. -/
theorem c2_not_exact :
    (resize_for_platform ⟨100, 100, []⟩ "ebay").w = 100 ∧
    (resize_for_platform ⟨100, 100, []⟩ "ebay").h = 100 ∧
    ¬((resize_for_platform ⟨100, 100, []⟩ "ebay").w = 1600 ∧
      (resize_for_platform ⟨100, 100, []⟩ "ebay").h = 1600) := by
  decide

/-- C1, counterexample: in a concrete successful batch, the archived image
went through orientation correction, tone enhancement, resizing and JPEG
encoding only — the background-leveling, content-cropping and square-canvas
stages of the claimed seven-stage pipeline never ran. -/
theorem c1_missing_stages :
    archiveEntries (process_images ⟨[], []⟩ [⟨"a.png", FileData.image 10 10 false⟩]
        ["ebay"] "" "2026-10-12")
      = [("Batch_PhotoBatcher_2026-10-12/ebay/a.jpg",
          ⟨10, 10, [Stage.orient, Stage.enhance, Stage.resize, Stage.encode]⟩)] ∧
    [Stage.orient, Stage.enhance, Stage.resize, Stage.encode] ≠ specStageOrder ∧
    Stage.level ∉ [Stage.orient, Stage.enhance, Stage.resize, Stage.encode] ∧
    Stage.crop ∉ [Stage.orient, Stage.enhance, Stage.resize, Stage.encode] ∧
    Stage.square ∉ [Stage.orient, Stage.enhance, Stage.resize, Stage.encode] := by
  refine ⟨rfl, by decide, by decide, by decide, by decide⟩

/-- C8: two uploads whose basenames coincide after dropping the extension
("a.png" and "a.jpeg") both map to the per-platform output name "a.jpg"; the
later-processed output overwrites the earlier one, and the archive holds a
single entry — fewer than the 2 x 1 per-pair entries — whose image is the
pipeline output of the later file. -/
theorem c8_basename_overwrite (w1 h1 w2 h2 : Nat) :
    splitextBase "a.png" ++ ".jpg" = "a.jpg" ∧
    splitextBase "a.jpeg" ++ ".jpg" = "a.jpg" ∧
    process_images ⟨[], []⟩
        [⟨"a.png", FileData.image w1 h1 false⟩, ⟨"a.jpeg", FileData.image w2 h2 false⟩]
        ["ebay"] "" "D"
      = Except.ok
          (⟨[("a.png", FileData.image w1 h1 false), ("a.jpeg", FileData.image w2 h2 false)],
            [(("ebay", "a.jpg"),
              encodeJPEG (resize_for_platform
                (enhance_image_export (exif_transpose_convert w2 h2 false)) "ebay"))]⟩,
           [("Batch_PhotoBatcher_D/ebay/a.jpg",
             encodeJPEG (resize_for_platform
               (enhance_image_export (exif_transpose_convert w2 h2 false)) "ebay"))]) ∧
    (archiveEntries (process_images ⟨[], []⟩
        [⟨"a.png", FileData.image w1 h1 false⟩, ⟨"a.jpeg", FileData.image w2 h2 false⟩]
        ["ebay"] "" "D")).length = 1 ∧
    (1 : Nat) < 2 * 1 := by
  refine ⟨by decide, by decide, rfl, rfl, by decide⟩

/-- C6: slugify_title implements exactly the claimed normalization — trim,
replace spaces with underscores, strip characters outside [A-Za-z0-9_-],
collapse repeated underscores, strip leading and trailing underscores,
default "Batch" on empty — and in particular maps "My  Shoe!!" to "My_Shoe"
and both "" and "___" to "Batch". -/
theorem c6_slugify_spec_equiv :
    (∀ s : String, slugify_title s = slugifySpecC6 s) ∧
    slugify_title "My  Shoe!!" = "My_Shoe" ∧
    slugify_title "" = "Batch" ∧
    slugify_title "___" = "Batch" := by
  refine ⟨?_, by decide, by decide, by decide⟩
  intro s
  unfold slugify_title slugifySpecC6
  by_cases h : String.mk (pyStrip s.toList) = ""
  · have hl : pyStrip s.toList = [] := congrArg String.data h
    rw [if_pos h, hl]
    rfl
  · rw [if_neg h]
    rfl

/-- roundAspect never exceeds a bound B ≥ 1 that dominates its argument,
whatever the tie-breaking key function is. -/
theorem roundAspect_le (q : Rat) (key : Nat → Rat) (B : Nat) (hB : 1 ≤ B)
    (hqB : q ≤ (B : Rat)) : roundAspect q key ≤ B := by
  have hceil : ⌈q⌉ ≤ (B : Int) := by
    rw [Int.ceil_le]
    exact_mod_cast hqB
  have hfc : ⌊q⌋ ≤ ⌈q⌉ := Int.floor_le_ceil q
  have hc : (⌈q⌉).toNat ≤ B := by omega
  have hf : (⌊q⌋).toNat ≤ B := by omega
  unfold roundAspect
  split
  · exact max_le hf hB
  · exact max_le hc hB

/-- roundAspect of a positive rational is within one of it: the result is
the floor, the ceiling, or the clamp to 1 when the argument is below 1. -/
theorem roundAspect_near (q : Rat) (key : Nat → Rat) (hq : 0 < q) :
    |((roundAspect q key : Nat) : Rat) - q| < 1 := by
  have hfl : (0 : Int) ≤ ⌊q⌋ := Int.floor_nonneg.mpr hq.le
  have hcl : (0 : Int) < ⌈q⌉ := Int.ceil_pos.mpr hq
  have hfle : ((⌊q⌋ : Int) : Rat) ≤ q := Int.floor_le q
  have hflt : q < ((⌊q⌋ : Int) : Rat) + 1 := Int.lt_floor_add_one q
  have hcge : q ≤ ((⌈q⌉ : Int) : Rat) := Int.le_ceil q
  have hclt : ((⌈q⌉ : Int) : Rat) < q + 1 := Int.ceil_lt_add_one q
  unfold roundAspect
  split
  · rcases Nat.eq_zero_or_pos (⌊q⌋).toNat with h0 | hpos
    · have hf0 : ⌊q⌋ = 0 := by omega
      have hq1 : q < 1 := by rw [hf0] at hflt; simpa using hflt
      rw [h0]
      have he : |((max 0 1 : Nat) : Rat) - q| = |1 - q| := by norm_num
      rw [he, abs_lt]
      constructor <;> linarith
    · rw [Nat.max_eq_left hpos]
      have hcast : (((⌊q⌋).toNat : Nat) : Rat) = ((⌊q⌋ : Int) : Rat) := by
        exact_mod_cast Int.toNat_of_nonneg hfl
      rw [hcast, abs_lt]
      constructor <;> linarith
  · have hcpos : 1 ≤ (⌈q⌉).toNat := by omega
    rw [Nat.max_eq_left hcpos]
    have hcast : (((⌈q⌉).toNat : Nat) : Rat) = ((⌈q⌉ : Int) : Rat) := by
      exact_mod_cast Int.toNat_of_nonneg hcl.le
    rw [hcast, abs_lt]
    constructor <;> linarith

/-- Behaviour of the thumbnail dimension computation for a square bounding
box of positive side S on an image of positive dimensions: the output fits
in the box, never exceeds the input dimensions, leaves an already-fitting
image untouched, and preserves the aspect ratio up to less-than-one-pixel
rounding (cross-multiplied form). -/
theorem thumbnailDims_spec (w h S : Nat) (hw : 0 < w) (hh : 0 < h) (hS : 0 < S) :
    ((thumbnailDims w h S S).1 ≤ S ∧ (thumbnailDims w h S S).2 ≤ S) ∧
    ((thumbnailDims w h S S).1 ≤ w ∧ (thumbnailDims w h S S).2 ≤ h) ∧
    (w ≤ S → h ≤ S → thumbnailDims w h S S = (w, h)) ∧
    |((thumbnailDims w h S S).1 : Int) * (h : Int)
        - ((thumbnailDims w h S S).2 : Int) * (w : Int)| < ((max w h : Nat) : Int) := by
  have hw' : (0 : Rat) < (w : Rat) := by exact_mod_cast hw
  have hh' : (0 : Rat) < (h : Rat) := by exact_mod_cast hh
  have hS' : (0 : Rat) < (S : Rat) := by exact_mod_cast hS
  have hSS : (S : Rat) / (S : Rat) = 1 := div_self (ne_of_gt hS')
  by_cases hfit : S ≥ w ∧ S ≥ h
  · have hd : thumbnailDims w h S S = (w, h) := by
      unfold thumbnailDims
      rw [if_pos hfit]
    rw [hd]
    refine ⟨⟨hfit.1, hfit.2⟩, ⟨le_refl w, le_refl h⟩, fun _ _ => rfl, ?_⟩
    have hmax : (0 : Int) < ((max w h : Nat) : Int) := by
      have hm : 0 < max w h := lt_of_lt_of_le hw (le_max_left w h)
      exact_mod_cast hm
    have hz : ((w : Int)) * (h : Int) - ((h : Int)) * (w : Int) = 0 := by ring
    simpa [hz] using hmax
  · by_cases hbr : (S : Rat) / (S : Rat) ≥ (w : Rat) / (h : Rat)
    · have haspect1 : (w : Rat) / (h : Rat) ≤ 1 := by rw [hSS] at hbr; exact hbr
      have hwh : w ≤ h := by
        have hc : (w : Rat) ≤ (h : Rat) := (div_le_one hh').mp haspect1
        exact_mod_cast hc
      have hSh : S < h := by
        by_contra hc
        push_neg at hc
        exact hfit ⟨le_trans hwh hc, hc⟩
      have hd : thumbnailDims w h S S
          = (roundAspect ((S : Rat) * ((w : Rat) / (h : Rat)))
              (fun n => |(w : Rat) / (h : Rat) - (n : Rat) / (S : Rat)|), S) := by
        unfold thumbnailDims
        rw [if_neg hfit, if_pos hbr]
      rw [hd]
      set q : Rat := (S : Rat) * ((w : Rat) / (h : Rat)) with hqdef
      set x : Nat :=
        roundAspect q (fun n => |(w : Rat) / (h : Rat) - (n : Rat) / (S : Rat)|) with hxdef
      have hq0 : 0 < q := mul_pos hS' (div_pos hw' hh')
      have hqS : q ≤ (S : Rat) := by
        calc q ≤ (S : Rat) * 1 := mul_le_mul_of_nonneg_left haspect1 hS'.le
          _ = (S : Rat) := mul_one _
      have hqw : q ≤ (w : Rat) := by
        rw [hqdef, mul_div_assoc', div_le_iff₀ hh']
        have hSh' : (S : Rat) ≤ (h : Rat) := by exact_mod_cast hSh.le
        nlinarith [hw'.le]
      have hxS : x ≤ S := roundAspect_le q _ S hS hqS
      have hxw : x ≤ w := roundAspect_le q _ w hw hqw
      have hnear : |((x : Nat) : Rat) - q| < 1 := roundAspect_near q _ hq0
      refine ⟨⟨hxS, le_refl S⟩, ⟨hxw, hSh.le⟩, fun hwS hhS => absurd ⟨hwS, hhS⟩ hfit, ?_⟩
      have hqh : q * (h : Rat) = (S : Rat) * (w : Rat) := by
        rw [hqdef]
        field_simp
      have heq : ((x : Nat) : Rat) * (h : Rat) - (S : Rat) * (w : Rat)
          = (((x : Nat) : Rat) - q) * (h : Rat) := by
        rw [sub_mul, hqh]
      have habs : |((x : Nat) : Rat) * (h : Rat) - (S : Rat) * (w : Rat)|
          = |((x : Nat) : Rat) - q| * (h : Rat) := by
        rw [heq, abs_mul, abs_of_pos hh']
      have hlt : |((x : Nat) : Rat) * (h : Rat) - (S : Rat) * (w : Rat)| < (h : Rat) := by
        rw [habs]
        calc |((x : Nat) : Rat) - q| * (h : Rat) < 1 * (h : Rat) :=
              mul_lt_mul_of_pos_right hnear hh'
          _ = (h : Rat) := one_mul _
      have hltZ : |((x : Int)) * (h : Int) - ((S : Int)) * (w : Int)| < (h : Int) := by
        have hcast : ((|((x : Int)) * (h : Int) - ((S : Int)) * (w : Int)| : Int) : Rat)
            < ((h : Int) : Rat) := by
          push_cast
          rw [abs_sub_comm] at hlt ⊢
          convert hlt using 2
        exact_mod_cast hcast
      have hhm : ((h : Int)) ≤ ((max w h : Nat) : Int) := by
        have hm : h ≤ max w h := le_max_right w h
        exact_mod_cast hm
      exact lt_of_lt_of_le hltZ hhm
    · have haspect1 : 1 < (w : Rat) / (h : Rat) := by
        rw [hSS] at hbr
        exact lt_of_not_ge hbr
      have hhw : h < w := by
        have hc : (h : Rat) < (w : Rat) := (one_lt_div hh').mp haspect1
        exact_mod_cast hc
      have hSw : S < w := by
        by_contra hc
        push_neg at hc
        exact hfit ⟨hc, le_trans hhw.le hc⟩
      have hd : thumbnailDims w h S S
          = (S, roundAspect ((S : Rat) / ((w : Rat) / (h : Rat)))
              (fun n => if n = 0 then 0
                else |(w : Rat) / (h : Rat) - (S : Rat) / (n : Rat)|)) := by
        unfold thumbnailDims
        rw [if_neg hfit, if_neg hbr]
      rw [hd]
      set q : Rat := (S : Rat) / ((w : Rat) / (h : Rat)) with hqdef
      set y : Nat :=
        roundAspect q (fun n => if n = 0 then 0
          else |(w : Rat) / (h : Rat) - (S : Rat) / (n : Rat)|) with hydef
      have haspect0 : (0 : Rat) < (w : Rat) / (h : Rat) := div_pos hw' hh'
      have hq0 : 0 < q := div_pos hS' haspect0
      have hqalt : q = (S : Rat) * (h : Rat) / (w : Rat) := by
        rw [hqdef]
        field_simp
      have hqS : q ≤ (S : Rat) := by
        rw [hqalt, div_le_iff₀ hw']
        have hhw' : (h : Rat) ≤ (w : Rat) := by exact_mod_cast hhw.le
        nlinarith [hS'.le]
      have hqh : q ≤ (h : Rat) := by
        rw [hqalt, div_le_iff₀ hw']
        have hSw' : (S : Rat) ≤ (w : Rat) := by exact_mod_cast hSw.le
        nlinarith [hh'.le]
      have hyS : y ≤ S := roundAspect_le q _ S hS hqS
      have hyh : y ≤ h := roundAspect_le q _ h hh hqh
      have hnear : |((y : Nat) : Rat) - q| < 1 := roundAspect_near q _ hq0
      refine ⟨⟨le_refl S, hyS⟩, ⟨hSw.le, hyh⟩, fun hwS hhS => absurd ⟨hwS, hhS⟩ hfit, ?_⟩
      have hqw : q * (w : Rat) = (S : Rat) * (h : Rat) := by
        rw [hqalt]
        field_simp
      have heq : ((y : Nat) : Rat) * (w : Rat) - (S : Rat) * (h : Rat)
          = (((y : Nat) : Rat) - q) * (w : Rat) := by
        rw [sub_mul, hqw]
      have habs : |((y : Nat) : Rat) * (w : Rat) - (S : Rat) * (h : Rat)|
          = |((y : Nat) : Rat) - q| * (w : Rat) := by
        rw [heq, abs_mul, abs_of_pos hw']
      have hlt : |((y : Nat) : Rat) * (w : Rat) - (S : Rat) * (h : Rat)| < (w : Rat) := by
        rw [habs]
        calc |((y : Nat) : Rat) - q| * (w : Rat) < 1 * (w : Rat) :=
              mul_lt_mul_of_pos_right hnear hw'
          _ = (w : Rat) := one_mul _
      have hltZ : |((S : Int)) * (h : Int) - ((y : Int)) * (w : Int)| < (w : Int) := by
        have hcast : ((|((S : Int)) * (h : Int) - ((y : Int)) * (w : Int)| : Int) : Rat)
            < ((w : Int) : Rat) := by
          push_cast
          rw [abs_sub_comm] at hlt
          convert hlt using 2
        exact_mod_cast hcast
      have hwm : ((w : Int)) ≤ ((max w h : Nat) : Int) := by
        have hm : w ≤ max w h := le_max_left w h
        exact_mod_cast hm
      exact lt_of_lt_of_le hltZ hwm

/-- roundAspect is the identity on a positive natural number. -/
theorem roundAspect_natCast (S : Nat) (key : Nat → Rat) (hS : 1 ≤ S) :
    roundAspect (S : Rat) key = S := by
  unfold roundAspect
  rw [Int.floor_natCast, Int.ceil_natCast, Int.toNat_natCast, ite_self]
  exact Nat.max_eq_left hS

/-- A square image whose side is at least the square box side is shrunk to
exactly the box dimensions. -/
theorem thumbnailDims_square (s S : Nat) (hS : 0 < S) (hge : S ≤ s) :
    thumbnailDims s s S S = (S, S) := by
  have hs : 0 < s := lt_of_lt_of_le hS hge
  have hs' : (0 : Rat) < (s : Rat) := by exact_mod_cast hs
  have hS' : (0 : Rat) < (S : Rat) := by exact_mod_cast hS
  by_cases hle : s ≤ S
  · have hsS : s = S := le_antisymm hle hge
    subst hsS
    unfold thumbnailDims
    rw [if_pos ⟨le_refl s, le_refl s⟩]
  · unfold thumbnailDims
    rw [if_neg (by omega : ¬(S ≥ s ∧ S ≥ s))]
    rw [if_pos (by rw [div_self (ne_of_gt hs'), div_self (ne_of_gt hS')])]
    have hq : (S : Rat) * ((s : Rat) / (s : Rat)) = ((S : Nat) : Rat) := by
      rw [div_self (ne_of_gt hs'), mul_one]
    rw [hq, roundAspect_natCast S _ hS]

/-- For a recognized platform, resize_for_platform computes exactly the
thumbnail dimensions for the platform's square target box. -/
theorem resize_dims (image : Img) (p : String) (S : Nat)
    (hp : (p, S) ∈ platformTargets) :
    (resize_for_platform image p).w = (thumbnailDims image.w image.h S S).1 ∧
    (resize_for_platform image p).h = (thumbnailDims image.w image.h S S).2 := by
  fin_cases hp <;>
    simp [resize_for_platform, applyThumbnail]

/-- Every platform target dimension is positive. -/
theorem platformTargets_pos (p : String) (S : Nat) (hp : (p, S) ∈ platformTargets) :
    0 < S := by
  fin_cases hp <;> decide

/-- C7: in the bounded (thumbnail) resize mode actually implemented, for
every image and recognized platform the output fits inside the platform's
square bounding box, is never upscaled, keeps an already-fitting image at
its original dimensions, and preserves the input aspect ratio up to
less-than-one-pixel integer rounding. -/
theorem c7_bounded_mode (image : Img) (p : String) (S : Nat)
    (hp : (p, S) ∈ platformTargets) (hw : 0 < image.w) (hh : 0 < image.h) :
    ((resize_for_platform image p).w ≤ S ∧ (resize_for_platform image p).h ≤ S) ∧
    ((resize_for_platform image p).w ≤ image.w ∧
      (resize_for_platform image p).h ≤ image.h) ∧
    (image.w ≤ S → image.h ≤ S →
      (resize_for_platform image p).w = image.w ∧
        (resize_for_platform image p).h = image.h) ∧
    |((resize_for_platform image p).w : Int) * (image.h : Int)
        - ((resize_for_platform image p).h : Int) * (image.w : Int)|
      < ((max image.w image.h : Nat) : Int) := by
  obtain ⟨hrw, hrh⟩ := resize_dims image p S hp
  have hS : 0 < S := platformTargets_pos p S hp
  obtain ⟨⟨h1, h2⟩, ⟨h3, h4⟩, h5, h6⟩ := thumbnailDims_spec image.w image.h S hw hh hS
  rw [hrw, hrh]
  refine ⟨⟨h1, h2⟩, ⟨h3, h4⟩, fun hwS hhS => ?_, h6⟩
  rw [h5 hwS hhS]
  exact ⟨rfl, rfl⟩

/-- C7, witness: the bounded-mode guarantees instantiated at a concrete
800x600 image and the poshmark target. -/
theorem c7_bounded_mode_witness :
    (("poshmark", 1080) ∈ platformTargets ∧ 0 < (800 : Nat) ∧ 0 < (600 : Nat)) ∧
    (((resize_for_platform ⟨800, 600, []⟩ "poshmark").w ≤ 1080 ∧
        (resize_for_platform ⟨800, 600, []⟩ "poshmark").h ≤ 1080) ∧
      ((resize_for_platform ⟨800, 600, []⟩ "poshmark").w ≤ (⟨800, 600, []⟩ : Img).w ∧
        (resize_for_platform ⟨800, 600, []⟩ "poshmark").h ≤ (⟨800, 600, []⟩ : Img).h) ∧
      ((⟨800, 600, []⟩ : Img).w ≤ 1080 → (⟨800, 600, []⟩ : Img).h ≤ 1080 →
        (resize_for_platform ⟨800, 600, []⟩ "poshmark").w = (⟨800, 600, []⟩ : Img).w ∧
          (resize_for_platform ⟨800, 600, []⟩ "poshmark").h = (⟨800, 600, []⟩ : Img).h) ∧
      |((resize_for_platform ⟨800, 600, []⟩ "poshmark").w : Int)
            * ((⟨800, 600, []⟩ : Img).h : Int)
          - ((resize_for_platform ⟨800, 600, []⟩ "poshmark").h : Int)
            * ((⟨800, 600, []⟩ : Img).w : Int)|
        < ((max (⟨800, 600, []⟩ : Img).w (⟨800, 600, []⟩ : Img).h : Nat) : Int)) :=
  ⟨⟨by decide, by decide, by decide⟩,
    c7_bounded_mode ⟨800, 600, []⟩ "poshmark" 1080 (by decide) (by decide) (by decide)⟩

/-- C2, amended: for a recognized platform the resizer's output never
exceeds the platform's target dimensions, and it equals the exact target
square whenever the input is square with side at least the target — the
situation the upstream Canvas Squarer is meant to guarantee.  (The exact
equality fails for smaller or non-square inputs: see the counterexample.) -/
theorem c2_bounded_dims (image : Img) (p : String) (S : Nat)
    (hp : (p, S) ∈ platformTargets) (hw : 0 < image.w) (hh : 0 < image.h) :
    ((resize_for_platform image p).w ≤ S ∧ (resize_for_platform image p).h ≤ S) ∧
    (image.w = image.h → S ≤ image.w →
      (resize_for_platform image p).w = S ∧ (resize_for_platform image p).h = S) := by
  obtain ⟨hrw, hrh⟩ := resize_dims image p S hp
  have hS : 0 < S := platformTargets_pos p S hp
  obtain ⟨⟨h1, h2⟩, _, _, _⟩ := thumbnailDims_spec image.w image.h S hw hh hS
  rw [hrw, hrh]
  refine ⟨⟨h1, h2⟩, fun hsq hge => ?_⟩
  rw [← hsq, thumbnailDims_square image.w S hS hge]
  exact ⟨rfl, rfl⟩

/-- C2, witness: a 2000x2000 image resized for ebay comes out at most
1600x1600, and — being square and larger than the target — exactly
1600x1600. -/
theorem c2_bounded_dims_witness :
    (("ebay", 1600) ∈ platformTargets ∧ 0 < (2000 : Nat) ∧ 0 < (2000 : Nat)) ∧
    (((resize_for_platform ⟨2000, 2000, []⟩ "ebay").w ≤ 1600 ∧
        (resize_for_platform ⟨2000, 2000, []⟩ "ebay").h ≤ 1600) ∧
      ((⟨2000, 2000, []⟩ : Img).w = (⟨2000, 2000, []⟩ : Img).h →
        1600 ≤ (⟨2000, 2000, []⟩ : Img).w →
        (resize_for_platform ⟨2000, 2000, []⟩ "ebay").w = 1600 ∧
          (resize_for_platform ⟨2000, 2000, []⟩ "ebay").h = 1600)) :=
  ⟨⟨by decide, by decide, by decide⟩,
    c2_bounded_dims ⟨2000, 2000, []⟩ "ebay" 1600 (by decide) (by decide) (by decide)⟩

/-- The per-platform output listing produced by one pass of the inner loop
over the upload directory: one (key, encoded image) entry per decodable
upload, in listing order, keyed by (platform, basename.jpg). -/
def pairOuts (uploads : List (String × FileData)) (p : String) :
    List ((String × String) × Img) :=
  uploads.filterMap (fun nf => (processPair nf.2 p).map
    (fun img => ((p, splitextBase nf.1 ++ ".jpg"), encodeJPEG img)))

/-- Writing under a name absent from a directory appends the new entry. -/
theorem storeKV_fresh {α β : Type} [DecidableEq α] (m : List (α × β)) (k : α) (v : β)
    (h : ∀ e ∈ m, e.1 ≠ k) : storeKV m k v = m ++ [(k, v)] := by
  unfold storeKV
  rw [if_neg]
  intro hany
  rw [List.any_eq_true] at hany
  rcases hany with ⟨e, he, hk⟩
  exact h e he (by simpa using hk)

/-- String concatenation with a fixed suffix is injective. -/
theorem string_append_right_inj (a b s : String) (h : a ++ s = b ++ s) : a = b := by
  have hd := congrArg String.data h
  rw [String.data_append, String.data_append] at hd
  exact String.ext (List.append_cancel_right hd)

/-- When the output keys are fresh for the accumulated folder contents and
the upload basenames are distinct, the per-platform loop appends exactly its
pairOuts listing, with no overwrites. -/
theorem processFolder_fresh (p : String) (uploads : List (String × FileData)) :
    ∀ acc : List ((String × String) × Img),
    (∀ nf ∈ uploads, ∀ e ∈ acc, e.1 ≠ (p, splitextBase nf.1 ++ ".jpg")) →
    (uploads.map (fun nf => splitextBase nf.1)).Nodup →
    processFolder uploads p acc = acc ++ pairOuts uploads p := by
  induction uploads with
  | nil =>
    intro acc _ _
    simp [processFolder, pairOuts]
  | cons nf rest ih =>
    intro acc hfresh hnd
    rw [List.map_cons, List.nodup_cons] at hnd
    obtain ⟨hnotmem, hnd'⟩ := hnd
    cases hc : processPair nf.2 p with
    | none =>
      have h1 : processFolder (nf :: rest) p acc = processFolder rest p acc := by
        simp [processFolder, hc]
      have h2 : pairOuts (nf :: rest) p = pairOuts rest p := by
        simp [pairOuts, List.filterMap_cons, hc]
      rw [h1, h2]
      exact ih acc (fun nf' hm e he => hfresh nf' (List.mem_cons_of_mem _ hm) e he) hnd'
    | some img =>
      have hkfresh : ∀ e ∈ acc, e.1 ≠ (p, splitextBase nf.1 ++ ".jpg") :=
        fun e he => hfresh nf (List.mem_cons_self _ _) e he
      have hstore : storeKV acc (p, splitextBase nf.1 ++ ".jpg") (encodeJPEG img)
          = acc ++ [((p, splitextBase nf.1 ++ ".jpg"), encodeJPEG img)] :=
        storeKV_fresh _ _ _ hkfresh
      have h1 : processFolder (nf :: rest) p acc
          = processFolder rest p
              (acc ++ [((p, splitextBase nf.1 ++ ".jpg"), encodeJPEG img)]) := by
        simp [processFolder, hc, hstore]
      have h2 : pairOuts (nf :: rest) p
          = ((p, splitextBase nf.1 ++ ".jpg"), encodeJPEG img) :: pairOuts rest p := by
        simp [pairOuts, List.filterMap_cons, hc]
      rw [h1, h2]
      have hfresh' : ∀ nf' ∈ rest,
          ∀ e ∈ acc ++ [((p, splitextBase nf.1 ++ ".jpg"), encodeJPEG img)],
          e.1 ≠ (p, splitextBase nf'.1 ++ ".jpg") := by
        intro nf' hm e he
        rcases List.mem_append.mp he with he | he
        · exact hfresh nf' (List.mem_cons_of_mem _ hm) e he
        · rcases List.mem_singleton.mp he with rfl
          intro hk
          have hb : splitextBase nf.1 ++ ".jpg" = splitextBase nf'.1 ++ ".jpg" :=
            congrArg Prod.snd hk
          have hbb : splitextBase nf.1 = splitextBase nf'.1 :=
            string_append_right_inj _ _ _ hb
          apply hnotmem
          rw [hbb]
          exact List.mem_map_of_mem _ hm
      rw [ih _ hfresh' hnd', List.append_assoc]
      rfl

/-- Every pairOuts entry is keyed under its own platform folder. -/
theorem pairOuts_fst (uploads : List (String × FileData)) (p : String)
    (e : (String × String) × Img) (he : e ∈ pairOuts uploads p) : e.1.1 = p := by
  rcases List.mem_filterMap.mp he with ⟨nf, _, hf⟩
  cases hfa : processPair nf.2 p with
  | none => rw [hfa] at hf; simp at hf
  | some img =>
    rw [hfa] at hf
    simp only [Option.map_some'] at hf
    rcases Option.some.inj hf with rfl
    rfl

/-- With distinct platforms and distinct upload basenames, the full
processing loop appends the per-platform listings platform by platform. -/
theorem processAll_fresh (uploads : List (String × FileData)) (platforms : List String) :
    ∀ acc : List ((String × String) × Img),
    (∀ e ∈ acc, e.1.1 ∉ platforms) →
    platforms.Nodup →
    (uploads.map (fun nf => splitextBase nf.1)).Nodup →
    platforms.foldl (fun acc p => processFolder uploads p acc) acc
      = acc ++ flatMapL platforms (fun p => pairOuts uploads p) := by
  induction platforms with
  | nil =>
    intro acc _ _ _
    simp [flatMapL]
  | cons p rest ih =>
    intro acc hacc hnd hnb
    rw [List.nodup_cons] at hnd
    obtain ⟨hpnot, hnd'⟩ := hnd
    rw [List.foldl_cons]
    have hfold : processFolder uploads p acc = acc ++ pairOuts uploads p := by
      apply processFolder_fresh p uploads acc ?_ hnb
      intro nf hm e he hk
      have hfst : e.1.1 = p := by rw [hk]
      exact hacc e he (hfst ▸ List.mem_cons_self p rest)
    rw [hfold]
    have hacc' : ∀ e ∈ acc ++ pairOuts uploads p, e.1.1 ∉ rest := by
      intro e he
      rcases List.mem_append.mp he with he | he
      · intro hmem
        exact hacc e he (List.mem_cons_of_mem _ hmem)
      · rw [pairOuts_fst uploads p e he]
        exact hpnot
    rw [ih _ hacc' hnd' hnb, List.append_assoc]
    rfl

/-- Saving separator-free uploads with distinct filenames appends one
directory entry per file, in upload order. -/
theorem saveUploads_eq (files : List UploadFileM) :
    ∀ d : List (String × FileData),
    (∀ f ∈ files, hasSep f.filename = false) →
    (∀ f ∈ files, ∀ e ∈ d, e.1 ≠ f.filename) →
    (files.map (fun f => f.filename)).Nodup →
    files.foldl
        (fun d f => if hasSep f.filename then d else storeKV d f.filename f.content) d
      = d ++ files.map (fun f => (f.filename, f.content)) := by
  induction files with
  | nil =>
    intro d _ _ _
    simp
  | cons f rest ih =>
    intro d hsep hfresh hnd
    rw [List.map_cons, List.nodup_cons] at hnd
    obtain ⟨hnot, hnd'⟩ := hnd
    rw [List.foldl_cons]
    rw [if_neg (by simp [hsep f (List.mem_cons_self f rest)])]
    rw [storeKV_fresh _ _ _ (fun e he => hfresh f (List.mem_cons_self _ _) e he)]
    have hfresh' : ∀ f' ∈ rest, ∀ e ∈ d ++ [(f.filename, f.content)],
        e.1 ≠ f'.filename := by
      intro f' hm e he
      rcases List.mem_append.mp he with he | he
      · exact hfresh f' (List.mem_cons_of_mem _ hm) e he
      · rcases List.mem_singleton.mp he with rfl
        intro hk
        apply hnot
        rw [show f.filename = f'.filename from hk]
        exact List.mem_map_of_mem _ hm
    rw [ih _ (fun f' hm => hsep f' (List.mem_cons_of_mem _ hm)) hfresh' hnd',
      List.append_assoc]
    rfl

/-- The keys of a per-platform listing: one (platform, basename.jpg) per
decodable upload, in order. -/
theorem pairOuts_keys (uploads : List (String × FileData)) (p : String) :
    (pairOuts uploads p).map (fun e => e.1)
      = (uploads.filter (fun nf => nf.2 ≠ FileData.corrupt)).map
          (fun nf => ((p, splitextBase nf.1 ++ ".jpg") : String × String)) := by
  induction uploads with
  | nil => simp [pairOuts]
  | cons nf rest ih =>
    rcases nf with ⟨name, fd⟩
    cases fd with
    | corrupt =>
      simp [pairOuts, List.filterMap_cons, processPair, List.filter_cons] at ih ⊢
      exact ih
    | image w h sw =>
      simp [pairOuts, List.filterMap_cons, processPair, List.filter_cons] at ih ⊢
      exact ih

/-- Mapping over a concatenation of per-element lists maps inside each. -/
theorem flatMapL_map {α β γ : Type} (l : List α) (g : α → List β) (f : β → γ) :
    (flatMapL l g).map f = flatMapL l (fun a => (g a).map f) := by
  induction l with
  | nil => simp [flatMapL]
  | cons a rest ih => simp [flatMapL, ih]

/-- Concatenations of pointwise-equal per-element lists are equal. -/
theorem flatMapL_congr {α β : Type} (l : List α) (g g' : α → List β)
    (h : ∀ a ∈ l, g a = g' a) : flatMapL l g = flatMapL l g' := by
  induction l with
  | nil => simp [flatMapL]
  | cons a rest ih =>
    simp only [flatMapL]
    rw [h a (List.mem_cons_self a rest),
      ih (fun a' ha' => h a' (List.mem_cons_of_mem _ ha'))]

/-- The length of a concatenation of equal-length lists. -/
theorem flatMapL_length_const {α β : Type} (l : List α) (g : α → List β) (N : Nat)
    (h : ∀ a ∈ l, (g a).length = N) :
    (flatMapL l g).length = l.length * N := by
  induction l with
  | nil => simp [flatMapL]
  | cons a rest ih =>
    simp only [flatMapL, List.length_append, List.length_cons]
    rw [h a (List.mem_cons_self a rest),
      ih (fun a' ha' => h a' (List.mem_cons_of_mem _ ha'))]
    ring

/-- A filter and its complement partition a list's length. -/
theorem length_filter_add {α : Type} (p : α → Bool) (l : List α) :
    (l.filter p).length + (l.filter (fun a => !(p a))).length = l.length := by
  induction l with
  | nil => rfl
  | cons a rest ih =>
    cases h : p a <;> simp [List.filter_cons, h] <;> omega

/-- The zip paths generated from a per-platform listing: one
parent/platform/basename.jpg path per decodable upload, in order. -/
theorem pairOuts_paths (uploads : List (String × FileData)) (p : String) (parent : String) :
    (pairOuts uploads p).map (fun e => parent ++ "/" ++ e.1.1 ++ "/" ++ e.1.2)
      = (uploads.filter (fun nf => nf.2 ≠ FileData.corrupt)).map
          (fun nf => parent ++ "/" ++ p ++ "/" ++ splitextBase nf.1 ++ ".jpg") := by
  induction uploads with
  | nil => simp [pairOuts]
  | cons nf rest ih =>
    rcases nf with ⟨name, fd⟩
    cases fd with
    | corrupt =>
      simp only [pairOuts, List.filterMap_cons, processPair, List.filter_cons] at ih ⊢
      simpa using ih
    | image w h sw =>
      simp only [pairOuts, List.filterMap_cons, processPair, Option.map_some'] at ih ⊢
      rw [List.filter_cons_of_pos (by simp), List.map_cons, List.map_cons]
      rw [ih]
      simp [String.append_assoc]


/-- The archive's path column is the processed listing mapped to
parent/platform/filename. -/
theorem buildArchive_paths (parent : String) (s : SysState) :
    (buildArchive parent s).map Prod.fst
      = s.processedDir.map (fun e => parent ++ "/" ++ e.1.1 ++ "/" ++ e.1.2) := by
  unfold buildArchive
  generalize s.processedDir = l
  induction l with
  | nil => rfl
  | cons e rest ih => simpa using ih

/-- C5, amended: for a batch of N uploads with separator-free filenames
and pairwise-distinct basenames, and P distinct recognized platforms, with
zero decode failures, the request succeeds and the archive holds exactly
N x P entries, one per (platform, image) pair, at
<slug>_PhotoBatcher_<date>/<platform>/<basename>.jpg.  (Without distinct
basenames outputs collide and entries are lost: see the counterexample.) -/
theorem c5_archive_completeness (init : SysState) (files : List UploadFileM)
    (platforms : List String) (title dateStr : String)
    (hP : platforms ≠ [])
    (hPn : platforms.Nodup)
    (hrec : ∀ p ∈ platforms, p ∈ platformTargets.map Prod.fst)
    (hsep : ∀ f ∈ files, hasSep f.filename = false)
    (hbase : (files.map (fun f => splitextBase f.filename)).Nodup)
    (hdec : ∀ f ∈ files, f.content ≠ FileData.corrupt) :
    ∃ st arch,
      process_images init files platforms title dateStr = Except.ok (st, arch) ∧
      arch.map Prod.fst
        = expectedPaths (parentFolderName title dateStr) platforms
            (files.map (fun f => f.filename)) ∧
      arch.length = platforms.length * files.length := by
  have hfn : (files.map (fun f => f.filename)).Nodup := by
    apply List.Nodup.of_map splitextBase
    rw [List.map_map]
    simpa [Function.comp] using hbase
  have hs1u : (saveUploads (wipeStagingDirs init) files).uploadDir
      = files.map (fun f => (f.filename, f.content)) := by
    have h := saveUploads_eq files [] hsep (by intro f _ e he; simp at he) hfn
    simpa [saveUploads, wipeStagingDirs] using h
  have hs1p : (saveUploads (wipeStagingDirs init) files).processedDir = [] := rfl
  have hnb : ((files.map (fun f => (f.filename, f.content))).map
      (fun nf => splitextBase nf.1)).Nodup := by
    rw [List.map_map]
    simpa [Function.comp] using hbase
  have hs2p : (processAll (saveUploads (wipeStagingDirs init) files) platforms).processedDir
      = flatMapL platforms
          (fun p => pairOuts (files.map (fun f => (f.filename, f.content))) p) := by
    unfold processAll
    rw [hs1u, hs1p]
    exact processAll_fresh _ platforms [] (by intro e he; simp at he) hPn hnb
  have hall : ∀ nf ∈ files.map (fun f => (f.filename, f.content)),
      (fun nf => decide ¬(nf.2 = FileData.corrupt)) nf = true := by
    intro nf hnf
    rcases List.mem_map.mp hnf with ⟨f, hf, rfl⟩
    simpa using hdec f hf
  refine ⟨processAll (saveUploads (wipeStagingDirs init) files) platforms,
    buildArchive (parentFolderName title dateStr)
      (processAll (saveUploads (wipeStagingDirs init) files) platforms), ?_, ?_, ?_⟩
  · unfold process_images
    rw [if_neg hP]
  · rw [buildArchive_paths, hs2p, flatMapL_map]
    unfold expectedPaths
    apply flatMapL_congr
    intro p hp
    rw [pairOuts_paths _ p (parentFolderName title dateStr)]
    rw [List.filter_eq_self.mpr hall]
    rw [List.map_map, List.map_map]
    rfl
  · rw [show (buildArchive (parentFolderName title dateStr)
        (processAll (saveUploads (wipeStagingDirs init) files) platforms)).length
        = (processAll (saveUploads (wipeStagingDirs init) files) platforms).processedDir.length
      from List.length_map _ _]
    rw [hs2p]
    apply flatMapL_length_const
    intro p hp
    have hl := congrArg List.length
      (pairOuts_paths (files.map (fun f => (f.filename, f.content))) p
        (parentFolderName title dateStr))
    rw [List.length_map, List.length_map, List.filter_eq_self.mpr hall] at hl
    rw [hl, List.length_map]

/-- C4, amended: for a batch with separator-free filenames,
pairwise-distinct basenames and distinct recognized platforms in which
exactly one upload fails to decode, the request still succeeds and the
archive holds exactly the entries of the remaining (platform, image) pairs
— P x (N - 1) of them — omitting only the corrupt file's.  (Distinct
basenames are needed for the same reason as in C5.) -/
theorem c4_partial_failure_isolation (init : SysState) (files : List UploadFileM)
    (platforms : List String) (title dateStr : String)
    (hP : platforms ≠ [])
    (hPn : platforms.Nodup)
    (hrec : ∀ p ∈ platforms, p ∈ platformTargets.map Prod.fst)
    (hsep : ∀ f ∈ files, hasSep f.filename = false)
    (hbase : (files.map (fun f => splitextBase f.filename)).Nodup)
    (hone : (files.filter (fun f => f.content = FileData.corrupt)).length = 1) :
    ∃ st arch,
      process_images init files platforms title dateStr = Except.ok (st, arch) ∧
      arch.map Prod.fst
        = expectedPaths (parentFolderName title dateStr) platforms
            ((files.filter (fun f => f.content ≠ FileData.corrupt)).map
              (fun f => f.filename)) ∧
      arch.length = platforms.length * (files.length - 1) := by
  have hfn : (files.map (fun f => f.filename)).Nodup := by
    apply List.Nodup.of_map splitextBase
    rw [List.map_map]
    simpa [Function.comp] using hbase
  have hs1u : (saveUploads (wipeStagingDirs init) files).uploadDir
      = files.map (fun f => (f.filename, f.content)) := by
    have h := saveUploads_eq files [] hsep (by intro f _ e he; simp at he) hfn
    simpa [saveUploads, wipeStagingDirs] using h
  have hs1p : (saveUploads (wipeStagingDirs init) files).processedDir = [] := rfl
  have hnb : ((files.map (fun f => (f.filename, f.content))).map
      (fun nf => splitextBase nf.1)).Nodup := by
    rw [List.map_map]
    simpa [Function.comp] using hbase
  have hs2p : (processAll (saveUploads (wipeStagingDirs init) files) platforms).processedDir
      = flatMapL platforms
          (fun p => pairOuts (files.map (fun f => (f.filename, f.content))) p) := by
    unfold processAll
    rw [hs1u, hs1p]
    exact processAll_fresh _ platforms [] (by intro e he; simp at he) hPn hnb
  have hgood : (files.filter (fun f => f.content ≠ FileData.corrupt)).length
      = files.length - 1 := by
    have h := length_filter_add (fun f => decide (f.content = FileData.corrupt)) files
    have he : files.filter (fun a => !(decide (a.content = FileData.corrupt)))
        = files.filter (fun f => f.content ≠ FileData.corrupt) := by
      apply List.filter_congr
      intro f _
      simp [decide_not]
    rw [he, hone] at h
    omega
  refine ⟨processAll (saveUploads (wipeStagingDirs init) files) platforms,
    buildArchive (parentFolderName title dateStr)
      (processAll (saveUploads (wipeStagingDirs init) files) platforms), ?_, ?_, ?_⟩
  · unfold process_images
    rw [if_neg hP]
  · rw [buildArchive_paths, hs2p, flatMapL_map]
    unfold expectedPaths
    apply flatMapL_congr
    intro p hp
    rw [pairOuts_paths _ p (parentFolderName title dateStr)]
    rw [List.filter_map, List.map_map, List.map_map]
    rfl
  · rw [show (buildArchive (parentFolderName title dateStr)
        (processAll (saveUploads (wipeStagingDirs init) files) platforms)).length
        = (processAll (saveUploads (wipeStagingDirs init) files) platforms).processedDir.length
      from List.length_map _ _]
    rw [hs2p, ← hgood]
    apply flatMapL_length_const
    intro p hp
    have hl := congrArg List.length
      (pairOuts_paths (files.map (fun f => (f.filename, f.content))) p
        (parentFolderName title dateStr))
    rw [List.length_map, List.length_map] at hl
    rw [hl, List.filter_map, List.length_map]
    rfl

/-- A directory write preserves any property shared by the stored values,
provided the written value has it. -/
theorem storeKV_values {α β : Type} [DecidableEq α] (Q : β → Prop)
    (m : List (α × β)) (k : α) (v : β)
    (hm : ∀ e ∈ m, Q e.2) (hv : Q v) :
    ∀ e ∈ storeKV m k v, Q e.2 := by
  intro e he
  unfold storeKV at he
  split at he
  · rcases List.mem_map.mp he with ⟨e', he', heq⟩
    by_cases hk : e'.1 = k
    · rw [if_pos hk] at heq
      rw [← heq]
      exact hv
    · rw [if_neg hk] at heq
      rw [← heq]
      exact hm e' he'
  · rcases List.mem_append.mp he with he | he
    · exact hm e he
    · rcases List.mem_singleton.mp he with rfl
      exact hv

/-- resize_for_platform always records exactly one resize stage, whatever
branch runs. -/
theorem resize_ops (image : Img) (p : String) :
    (resize_for_platform image p).ops = image.ops ++ [Stage.resize] := by
  unfold resize_for_platform applyThumbnail
  split
  · rfl
  · split
    · rfl
    · split
      · rfl
      · rfl

/-- A successfully processed pair has gone through exactly orientation
correction, tone enhancement and resizing, in that order. -/
theorem processPair_ops (fd : FileData) (p : String) (img : Img)
    (h : processPair fd p = some img) :
    img.ops = [Stage.orient, Stage.enhance, Stage.resize] := by
  cases fd with
  | corrupt => simp [processPair] at h
  | image w hh sw =>
    simp only [processPair, Option.some.injEq] at h
    rw [← h, resize_ops]
    rfl

/-- The inner processing loop only stores images whose stage trace is
orient, enhance, resize, encode. -/
theorem processFolder_opsInv (uploads : List (String × FileData)) (p : String) :
    ∀ acc : List ((String × String) × Img),
    (∀ e ∈ acc,
      e.2.ops = [Stage.orient, Stage.enhance, Stage.resize, Stage.encode]) →
    ∀ e ∈ processFolder uploads p acc,
      e.2.ops = [Stage.orient, Stage.enhance, Stage.resize, Stage.encode] := by
  induction uploads with
  | nil =>
    intro acc hacc
    simpa [processFolder] using hacc
  | cons nf rest ih =>
    intro acc hacc
    cases hc : processPair nf.2 p with
    | none =>
      have h1 : processFolder (nf :: rest) p acc = processFolder rest p acc := by
        simp [processFolder, hc]
      rw [h1]
      exact ih acc hacc
    | some img =>
      have h1 : processFolder (nf :: rest) p acc
          = processFolder rest p
              (storeKV acc (p, splitextBase nf.1 ++ ".jpg") (encodeJPEG img)) := by
        simp [processFolder, hc]
      rw [h1]
      apply ih
      refine storeKV_values
        (fun i => i.ops = [Stage.orient, Stage.enhance, Stage.resize, Stage.encode])
        acc _ _ hacc ?_
      show (encodeJPEG img).ops = _
      unfold encodeJPEG
      rw [show ({ img with ops := img.ops ++ [Stage.encode] } : Img).ops
          = img.ops ++ [Stage.encode] from rfl]
      rw [processPair_ops nf.2 p img hc]
      rfl

/-- The full processing loop only stores images whose stage trace is
orient, enhance, resize, encode. -/
theorem processAll_opsInv (uploads : List (String × FileData))
    (platforms : List String) :
    ∀ acc : List ((String × String) × Img),
    (∀ e ∈ acc,
      e.2.ops = [Stage.orient, Stage.enhance, Stage.resize, Stage.encode]) →
    ∀ e ∈ platforms.foldl (fun acc p => processFolder uploads p acc) acc,
      e.2.ops = [Stage.orient, Stage.enhance, Stage.resize, Stage.encode] := by
  induction platforms with
  | nil =>
    intro acc hacc
    simpa using hacc
  | cons p rest ih =>
    intro acc hacc
    rw [List.foldl_cons]
    exact ih _ (processFolder_opsInv uploads p acc hacc)

/-- C1, amended: every image in the archive of a successful request went
through exactly these stages in this order: EXIF-aware orientation
correction (with RGB conversion), tone enhancement, platform-specific
resizing, lossy JPEG re-encoding.  The background-leveling, content-cropping
and square-canvas stages of the claim never run (see the counterexample). -/
theorem c1_actual_stage_order (init : SysState) (files : List UploadFileM)
    (platforms : List String) (title dateStr : String)
    (st : SysState) (arch : List (String × Img)) (entry : String × Img)
    (hok : process_images init files platforms title dateStr = Except.ok (st, arch))
    (he : entry ∈ arch) :
    entry.2.ops = [Stage.orient, Stage.enhance, Stage.resize, Stage.encode] := by
  by_cases hP : platforms = []
  · rw [show process_images init files platforms title dateStr
        = Except.error RequestError.noPlatformSelected by
        unfold process_images; rw [if_pos hP]] at hok
    exact absurd hok (by simp)
  · have hrun : process_images init files platforms title dateStr
        = Except.ok (processAll (saveUploads (wipeStagingDirs init) files) platforms,
            buildArchive (parentFolderName title dateStr)
              (processAll (saveUploads (wipeStagingDirs init) files) platforms)) := by
      unfold process_images
      rw [if_neg hP]
    rw [hrun] at hok
    have harch : buildArchive (parentFolderName title dateStr)
        (processAll (saveUploads (wipeStagingDirs init) files) platforms) = arch :=
      congrArg Prod.snd (Except.ok.inj hok)
    rw [← harch] at he
    unfold buildArchive at he
    rcases List.mem_map.mp he with ⟨e0, he0, rfl⟩
    show e0.2.ops = _
    exact processAll_opsInv _ platforms [] (by intro e h0; simp at h0) e0 he0

/-- C1, witness: the amended stage-order theorem applied to the archive
entry of a concrete one-image, one-platform request. -/
theorem c1_actual_stage_order_witness :
    (("Batch_PhotoBatcher_2026-10-12/ebay/a.jpg",
        (⟨10, 10, [Stage.orient, Stage.enhance, Stage.resize, Stage.encode]⟩ : Img))
      : String × Img).2.ops
      = [Stage.orient, Stage.enhance, Stage.resize, Stage.encode] :=
  c1_actual_stage_order ⟨[], []⟩ [⟨"a.png", FileData.image 10 10 false⟩] ["ebay"] "" "2026-10-12"
    ⟨[("a.png", FileData.image 10 10 false)],
      [(("ebay", "a.jpg"),
        ⟨10, 10, [Stage.orient, Stage.enhance, Stage.resize, Stage.encode]⟩)]⟩
    [("Batch_PhotoBatcher_2026-10-12/ebay/a.jpg",
      ⟨10, 10, [Stage.orient, Stage.enhance, Stage.resize, Stage.encode]⟩)]
    ("Batch_PhotoBatcher_2026-10-12/ebay/a.jpg",
      ⟨10, 10, [Stage.orient, Stage.enhance, Stage.resize, Stage.encode]⟩)
    rfl (by decide)

/-- Two decodable uploads whose basenames coincide after dropping the
extension. -/
def filesDupBase : List UploadFileM :=
  [⟨"a.png", FileData.image 10 10 false⟩, ⟨"a.jpeg", FileData.image 9 9 false⟩]

/-- filesDupBase plus one undecodable upload. -/
def filesDupBaseCorrupt : List UploadFileM :=
  [⟨"a.png", FileData.image 10 10 false⟩, ⟨"a.jpeg", FileData.image 9 9 false⟩,
   ⟨"bad.png", FileData.corrupt⟩]

/-- Two decodable uploads with distinct basenames. -/
def filesTwoGood : List UploadFileM :=
  [⟨"a.png", FileData.image 10 10 false⟩, ⟨"b.png", FileData.image 8 12 true⟩]

/-- Three uploads, exactly one undecodable, with distinct basenames. -/
def filesOneCorrupt : List UploadFileM :=
  [⟨"a.png", FileData.image 10 10 false⟩, ⟨"bad.png", FileData.corrupt⟩,
   ⟨"c.png", FileData.image 8 12 false⟩]

/-- C5, counterexample: a batch of N = 2 decodable images whose basenames
collide ("a.png", "a.jpeg") over P = 2 platforms yields an archive of only
2 entries, not the claimed N x P = 4 — the colliding outputs overwrite each
other. -/
theorem c5_collision_counterexample :
    (∀ f ∈ filesDupBase, f.content ≠ FileData.corrupt) ∧
    filesDupBase.length * (["ebay", "poshmark"] : List String).length = 4 ∧
    reqOk (process_images ⟨[], []⟩ filesDupBase ["ebay", "poshmark"] "" "D") = true ∧
    (archiveEntries
        (process_images ⟨[], []⟩ filesDupBase ["ebay", "poshmark"] "" "D")).length = 2 ∧
    (2 : Nat) ≠ 4 :=
  ⟨by decide, rfl, rfl, rfl, by decide⟩

/-- C4, counterexample: in a batch with exactly one undecodable file whose
two decodable files share a basename, the archive holds a single entry
instead of one per non-corrupt (image, platform) pair — an entry is missing
for a reason other than the corrupt file. -/
theorem c4_collision_counterexample :
    (filesDupBaseCorrupt.filter (fun f => f.content = FileData.corrupt)).length = 1 ∧
    (filesDupBaseCorrupt.filter (fun f => f.content ≠ FileData.corrupt)).length * 1 = 2 ∧
    reqOk (process_images ⟨[], []⟩ filesDupBaseCorrupt ["ebay"] "" "D") = true ∧
    (archiveEntries
        (process_images ⟨[], []⟩ filesDupBaseCorrupt ["ebay"] "" "D")).length = 1 ∧
    (1 : Nat) ≠ 2 :=
  ⟨by decide, by decide, rfl, rfl, by decide⟩

/-- C5, witness: the amended archive-completeness theorem applied to a
concrete two-image, two-platform batch. -/
theorem c5_archive_completeness_witness :
    ((["ebay", "poshmark"] : List String) ≠ [] ∧
      (["ebay", "poshmark"] : List String).Nodup ∧
      (∀ p ∈ (["ebay", "poshmark"] : List String), p ∈ platformTargets.map Prod.fst) ∧
      (∀ f ∈ filesTwoGood, hasSep f.filename = false) ∧
      (filesTwoGood.map (fun f => splitextBase f.filename)).Nodup ∧
      (∀ f ∈ filesTwoGood, f.content ≠ FileData.corrupt)) ∧
    (∃ st arch,
      process_images ⟨[], []⟩ filesTwoGood ["ebay", "poshmark"] "My  Shoe!!" "2026-10-12"
        = Except.ok (st, arch) ∧
      arch.map Prod.fst
        = expectedPaths (parentFolderName "My  Shoe!!" "2026-10-12") ["ebay", "poshmark"]
            (filesTwoGood.map (fun f => f.filename)) ∧
      arch.length = (["ebay", "poshmark"] : List String).length * filesTwoGood.length) :=
  ⟨⟨by decide, by decide, by decide, by decide, by decide, by decide⟩,
    c5_archive_completeness ⟨[], []⟩ filesTwoGood ["ebay", "poshmark"]
      "My  Shoe!!" "2026-10-12"
      (by decide) (by decide) (by decide) (by decide) (by decide) (by decide)⟩

/-- C4, witness: the amended failure-isolation theorem applied to a concrete
three-image batch with one corrupt file over two platforms. -/
theorem c4_partial_failure_isolation_witness :
    ((["ebay", "mercari"] : List String) ≠ [] ∧
      (["ebay", "mercari"] : List String).Nodup ∧
      (∀ p ∈ (["ebay", "mercari"] : List String), p ∈ platformTargets.map Prod.fst) ∧
      (∀ f ∈ filesOneCorrupt, hasSep f.filename = false) ∧
      (filesOneCorrupt.map (fun f => splitextBase f.filename)).Nodup ∧
      (filesOneCorrupt.filter (fun f => f.content = FileData.corrupt)).length = 1) ∧
    (∃ st arch,
      process_images ⟨[], []⟩ filesOneCorrupt ["ebay", "mercari"] "" "2026-10-12"
        = Except.ok (st, arch) ∧
      arch.map Prod.fst
        = expectedPaths (parentFolderName "" "2026-10-12") ["ebay", "mercari"]
            ((filesOneCorrupt.filter (fun f => f.content ≠ FileData.corrupt)).map
              (fun f => f.filename)) ∧
      arch.length = (["ebay", "mercari"] : List String).length
        * (filesOneCorrupt.length - 1)) :=
  ⟨⟨by decide, by decide, by decide, by decide, by decide, by decide⟩,
    c4_partial_failure_isolation ⟨[], []⟩ filesOneCorrupt ["ebay", "mercari"]
      "" "2026-10-12"
      (by decide) (by decide) (by decide) (by decide) (by decide) (by decide)⟩
